import Mathlib

/-!
# Verification of the netthru throughput tool (src/netthru/main.cpp)

Shallow embedding of the core of `netthru`, a client/server TCP throughput
measurement program.  The network and the clock are modelled as explicit
event lists (one event per loop iteration of the corresponding C loop);
machine integers are modelled as `Int`/`Nat` with explicit reductions
modulo `2^64` exactly where the C code performs an implicit
signed/unsigned conversion (`size_t`/`ssize_t`).  Wall-clock instants
(`double` values of `getCurrentSeconds`) are modelled as integers; no
claim here depends on fractional time.
-/

namespace Netthru

/-! ## C string primitives used by the codec and the argument parser -/

/-- C `isspace` in the default locale: space, tab, newline, vertical tab,
form feed, carriage return.  Used by `atoi`. -/
def isCSpace (c : Char) : Bool :=
  c = ' ' || c = '\t' || c = '\n' || c = '\x0b' || c = '\x0c' || c = '\r'

/-- Numeric value of a decimal digit character. -/
def digitVal (c : Char) : Int :=
  (c.toNat : Int) - 48

/-- Value of a list of decimal digit characters, most significant first
(the accumulation loop inside C `atoi`). -/
def digitsVal (l : List Char) : Int :=
  l.foldl (fun acc c => 10 * acc + digitVal c) 0

/-- C `atoi`: skip leading whitespace, then an optional single sign, then
consume decimal digits; everything after the first non-digit is ignored,
and no digits at all yields `0`.  (Overflow cannot occur for the inputs
used here, so the mathematical integer is the faithful model.) -/
def atoiChars (l : List Char) : Int :=
  let l1 := l.dropWhile (fun c => isCSpace c)
  match l1 with
  | [] => 0
  | c :: rest =>
    if c = '-' then - digitsVal (rest.takeWhile (fun d => d.isDigit))
    else if c = '+' then digitsVal (rest.takeWhile (fun d => d.isDigit))
    else digitsVal (l1.takeWhile (fun d => d.isDigit))

/-- C `atoi` on a string. -/
def atoiStr (s : String) : Int := atoiChars s.data

/-- Accumulator worker for `strtokPipe`: `cur` holds the (reversed)
characters of the token currently being scanned. -/
def strtokGo (cur : List Char) : List Char → List (List Char)
  | [] => if cur = [] then [] else [cur.reverse]
  | c :: rest =>
    if c = '|' then
      if cur = [] then strtokGo [] rest
      else cur.reverse :: strtokGo [] rest
    else strtokGo (c :: cur) rest

/-- The token sequence produced by repeated `strtok(..., "|")` calls on a
NUL-terminated buffer: the maximal non-empty runs of non-`'|'` characters,
in order.  (`strtok` skips leading and collapses repeated delimiters; this
collapsing is the behaviour under verification for the frame decoder.) -/
def strtokPipe (l : List Char) : List (List Char) := strtokGo [] l

/-! ## FrameCodec (main.cpp lines 240-258 decode, lines 369-372 encode) -/

/-- The negotiated transfer parameters: seconds to send, bytes per send
call, and the message the client asks the server to log. -/
structure TransferRequest where
  durationSeconds : Int
  bufferBytes : Int
  message : String
deriving DecidableEq, Repr

/-- The server-side decoder (`handleServerConnection`, lines 240-258):
`strtok` on `"|"`; the first token (nominally `"send"`) is ignored, the
second is `atoi`-ed into the duration, the third into the buffer size and
the fourth, verbatim, is the message; each missing token leaves the
zero/empty default in place. -/
def decodeChars (l : List Char) : TransferRequest :=
  let toks := strtokPipe l
  { durationSeconds := match toks[1]? with | some t => atoiChars t | none => 0
    bufferBytes := match toks[2]? with | some t => atoiChars t | none => 0
    message := match toks[3]? with | some t => String.mk t | none => "" }

/-- Decode a received control line. -/
def decode (s : String) : TransferRequest := decodeChars s.data

/-- Decimal digit characters of a natural number, most significant first
(the output of `%d` for a non-negative value).  Structural recursion on a
fuel argument so that the kernel can evaluate it; `fuel > n` is always
enough since `n` loses at least one digit per step. -/
def natDigitsGo : Nat → Nat → List Char
  | 0, _ => []
  | fuel + 1, n =>
    if n < 10 then [Char.ofNat (48 + n)]
    else natDigitsGo fuel (n / 10) ++ [Char.ofNat (48 + n % 10)]

/-- Decimal digits of a natural number. -/
def natDigits (n : Nat) : List Char := natDigitsGo (n + 1) n

/-- The characters printed by C `printf`/`snprintf` `%d` for an `int`. -/
def intDecimal (n : Int) : List Char :=
  if n < 0 then '-' :: natDigits n.natAbs else natDigits n.toNat

/-- The client-side encoder (`handleClientConnection`, lines 370-371):
`snprintf(buf, sizeof(buf), "send|%d|%d|%s|\n", secs, bytes_per_buf, msg)`.
This models the format string itself; the 256-byte buffer that the client
formats into is a transport-level concern of the caller. -/
def encode (r : TransferRequest) : String :=
  String.mk ("send|".data ++ (intDecimal r.durationSeconds ++ ("|".data ++
    (intDecimal r.bufferBytes ++ ("|".data ++ (r.message.data ++ "|\n".data))))))

/-! ## Arithmetic facts about the decimal printer and C atoi -/

theorem digitsVal_append (l : List Char) (c : Char) :
    digitsVal (l ++ [c]) = 10 * digitsVal l + digitVal c := by
  simp [digitsVal, List.foldl_append]

theorem digitChar_spec (d : Nat) (hd : d < 10) :
    (Char.ofNat (48 + d)).isDigit = true ∧ digitVal (Char.ofNat (48 + d)) = (d : Int) := by
  interval_cases d <;> exact ⟨by decide, by decide⟩

theorem natDigitsGo_spec : ∀ fuel n : Nat, n < fuel →
    natDigitsGo fuel n ≠ [] ∧ (∀ c ∈ natDigitsGo fuel n, c.isDigit = true) ∧
      digitsVal (natDigitsGo fuel n) = (n : Int) := by
  intro fuel
  induction fuel with
  | zero => intro n h; exact absurd h (Nat.not_lt_zero n)
  | succ f ih =>
    intro n h
    by_cases h10 : n < 10
    · simp only [natDigitsGo, if_pos h10]
      obtain ⟨hdig, hval⟩ := digitChar_spec n h10
      refine ⟨by simp, ?_, ?_⟩
      · intro c hc
        rw [List.mem_singleton.mp hc]
        exact hdig
      · have h1 : digitsVal [Char.ofNat (48 + n)] = digitVal (Char.ofNat (48 + n)) := by
          simp [digitsVal]
        rw [h1, hval]
    · simp only [natDigitsGo, if_neg h10]
      obtain ⟨hne, hdig, hval⟩ := ih (n / 10) (by omega)
      obtain ⟨hdig2, hval2⟩ := digitChar_spec (n % 10) (by omega)
      refine ⟨by simp, ?_, ?_⟩
      · intro c hc
        rcases List.mem_append.mp hc with hc | hc
        · exact hdig c hc
        · rw [List.mem_singleton.mp hc]
          exact hdig2
      · rw [digitsVal_append, hval, hval2]
        omega

theorem natDigits_spec (m : Nat) :
    natDigits m ≠ [] ∧ (∀ c ∈ natDigits m, c.isDigit = true) ∧
      digitsVal (natDigits m) = (m : Int) :=
  natDigitsGo_spec (m + 1) m (Nat.lt_succ_self m)

theorem takeWhile_eq_self_of_all {p : Char → Bool} :
    ∀ l : List Char, (∀ c ∈ l, p c = true) → l.takeWhile p = l := by
  intro l
  induction l with
  | nil => intro _; rfl
  | cons c t ih =>
    intro h
    have hc : p c = true := h c (List.mem_cons_self c t)
    have ht : ∀ d ∈ t, p d = true := fun d hd => h d (List.mem_cons_of_mem c hd)
    simp [List.takeWhile_cons, hc, ih ht]

theorem isCSpace_eq_false_of_isDigit {c : Char} (h : c.isDigit = true) :
    isCSpace c = false := by
  have hs : c ≠ ' ' := by rintro rfl; exact absurd h (by decide)
  have ht : c ≠ '\t' := by rintro rfl; exact absurd h (by decide)
  have hn : c ≠ '\n' := by rintro rfl; exact absurd h (by decide)
  have hv : c ≠ '\x0b' := by rintro rfl; exact absurd h (by decide)
  have hf : c ≠ '\x0c' := by rintro rfl; exact absurd h (by decide)
  have hr : c ≠ '\r' := by rintro rfl; exact absurd h (by decide)
  simp [isCSpace, hs, ht, hn, hv, hf, hr]

theorem atoiChars_of_digits (l : List Char) (hne : l ≠ [])
    (hd : ∀ c ∈ l, c.isDigit = true) : atoiChars l = digitsVal l := by
  obtain ⟨c, t, rfl⟩ := List.exists_cons_of_ne_nil hne
  have hc : c.isDigit = true := hd c (List.mem_cons_self c t)
  have hsp : isCSpace c = false := isCSpace_eq_false_of_isDigit hc
  have hminus : c ≠ '-' := by rintro rfl; exact absurd hc (by decide)
  have hplus : c ≠ '+' := by rintro rfl; exact absurd hc (by decide)
  simp only [atoiChars, List.dropWhile_cons, hsp, Bool.false_eq_true, if_false,
    if_neg hminus, if_neg hplus]
  rw [takeWhile_eq_self_of_all _ hd]

theorem atoiChars_minus (l : List Char) :
    atoiChars ('-' :: l) = - digitsVal (l.takeWhile (fun d => d.isDigit)) := rfl

theorem atoi_intDecimal (n : Int) : atoiChars (intDecimal n) = n := by
  unfold intDecimal
  split
  · next h =>
    obtain ⟨hne, hdig, hval⟩ := natDigits_spec n.natAbs
    rw [atoiChars_minus, takeWhile_eq_self_of_all _ hdig, hval]
    omega
  · next h =>
    obtain ⟨hne, hdig, hval⟩ := natDigits_spec n.toNat
    rw [atoiChars_of_digits _ hne hdig, hval]
    omega

theorem intDecimal_spec (n : Int) :
    intDecimal n ≠ [] ∧ ∀ c ∈ intDecimal n, c ≠ '|' := by
  unfold intDecimal
  split
  · obtain ⟨hne, hdig, _⟩ := natDigits_spec n.natAbs
    refine ⟨by simp, ?_⟩
    intro c hc
    rcases List.mem_cons.mp hc with rfl | hc
    · decide
    · have := hdig c hc
      rintro rfl
      exact absurd this (by decide)
  · obtain ⟨hne, hdig, _⟩ := natDigits_spec n.toNat
    refine ⟨hne, ?_⟩
    intro c hc
    have := hdig c hc
    rintro rfl
    exact absurd this (by decide)

/-! ## Behaviour of the strtok tokenizer -/

theorem strtokGo_append_no_pipe :
    ∀ t cur rest : List Char, (∀ c ∈ t, c ≠ '|') →
      strtokGo cur (t ++ rest) = strtokGo (t.reverse ++ cur) rest := by
  intro t
  induction t with
  | nil => intro cur rest _; simp
  | cons c t ih =>
    intro cur rest h
    have hc : c ≠ '|' := h c (List.mem_cons_self c t)
    have harg : (c :: t).reverse ++ cur = t.reverse ++ (c :: cur) := by
      simp [List.reverse_cons, List.append_assoc]
    rw [harg, List.cons_append]
    show strtokGo cur (c :: (t ++ rest)) = _
    rw [show strtokGo cur (c :: (t ++ rest)) = strtokGo (c :: cur) (t ++ rest) from by
      simp [strtokGo, hc]]
    exact ih (c :: cur) rest (fun d hd => h d (List.mem_cons_of_mem c hd))

theorem strtokGo_pipe (cur rest : List Char) :
    strtokGo cur ('|' :: rest) =
      if cur = [] then strtokGo [] rest else cur.reverse :: strtokGo [] rest := by
  simp [strtokGo]

theorem strtokPipe_token_sep (t rest : List Char) (hne : t ≠ [])
    (hp : ∀ c ∈ t, c ≠ '|') :
    strtokPipe (t ++ '|' :: rest) = t :: strtokPipe rest := by
  unfold strtokPipe
  rw [strtokGo_append_no_pipe t [] ('|' :: rest) hp, List.append_nil, strtokGo_pipe]
  have hrne : t.reverse ≠ [] := by simpa using hne
  rw [if_neg hrne, List.reverse_reverse]

theorem strtok_frame (d1 d2 m : List Char)
    (h1ne : d1 ≠ []) (h1p : ∀ c ∈ d1, c ≠ '|')
    (h2ne : d2 ≠ []) (h2p : ∀ c ∈ d2, c ≠ '|')
    (hmne : m ≠ []) (hmp : ∀ c ∈ m, c ≠ '|') :
    strtokPipe ("send".data ++ '|' :: (d1 ++ '|' :: (d2 ++ '|' :: (m ++ '|' :: ['\n'])))) =
      ["send".data, d1, d2, m, ['\n']] := by
  rw [strtokPipe_token_sep "send".data _ (by decide) (by decide)]
  rw [strtokPipe_token_sep d1 _ h1ne h1p]
  rw [strtokPipe_token_sep d2 _ h2ne h2p]
  rw [strtokPipe_token_sep m _ hmne hmp]
  rfl

/-! ## Claims C4 and C5: the frame codec -/

/-- Claim C4, counterexample.  The claim asserts the round-trip
`decode (encode req) = req` for every request whose message contains no
pipe and no newline — including the empty message.  It fails there: for
`req = ⟨5, 1024, ""⟩` the encoder emits `"send|5|1024||\n"`, and `strtok`
collapses the empty `||` field, so the fourth token becomes the trailing
`"\n"` and the decoded message is `"\n"`, not `""`. -/
theorem frame_roundtrip_empty_counterexample :
    decode (encode ⟨5, 1024, ""⟩) = ⟨5, 1024, "\n"⟩ ∧
      decide (decode (encode ⟨5, 1024, ""⟩) = (⟨5, 1024, ""⟩ : TransferRequest)) = false := by
  exact ⟨by decide, by decide⟩

/-- Claim C4, amended: for every `TransferRequest` whose message is
non-empty and contains no `'|'` and no newline, decoding the encoded
control frame returns the request unchanged:
`decode (encode req) = req`, where `encode` produces
`"send|{secs}|{bytesPerBuf}|{message}|\n"`.  (The empty-message case had
to be excluded; see the counterexample.) -/
theorem decode_encode_roundtrip (r : TransferRequest) (hne : r.message ≠ "")
    (hp : ∀ c ∈ r.message.data, c ≠ '|') (hnl : ∀ c ∈ r.message.data, c ≠ '\n') :
    decode (encode r) = r := by
  obtain ⟨secs, bpb, msg⟩ := r
  obtain ⟨m⟩ := msg
  have hmne : m ≠ [] := by
    intro hm
    apply hne
    rw [hm]
  obtain ⟨hd1ne, hd1p⟩ := intDecimal_spec secs
  obtain ⟨hd2ne, hd2p⟩ := intDecimal_spec bpb
  have htok := strtok_frame (intDecimal secs) (intDecimal bpb) m
    hd1ne hd1p hd2ne hd2p hmne hp
  show decodeChars ("send".data ++ '|' :: (intDecimal secs ++ '|' ::
    (intDecimal bpb ++ '|' :: (m ++ '|' :: ['\n'])))) = ⟨secs, bpb, ⟨m⟩⟩
  simp only [decodeChars, htok, List.getElem?_cons_succ, List.getElem?_cons_zero,
    atoi_intDecimal]

/-- Claim C4, witness: the round-trip theorem applied to the concrete
request `⟨5, 1024, "hello"⟩`. -/
theorem decode_encode_roundtrip_witness :
    decide ((⟨5, 1024, "hello"⟩ : TransferRequest).message = "") = false ∧
      decode (encode ⟨5, 1024, "hello"⟩) = ⟨5, 1024, "hello"⟩ :=
  ⟨by decide, decode_encode_roundtrip ⟨5, 1024, "hello"⟩ (by decide) (by decide) (by decide)⟩

/-- Claim C5: `decode` is total — it never rejects a line.  The two
spec-mandated examples evaluate as claimed, and in general a token list
that is too short leaves the corresponding fields at their zero/empty
defaults. -/
theorem decode_total_and_defaults :
    decode "send|5|1024|hello|\n" = ⟨5, 1024, "hello"⟩ ∧
    decode "send|5|\n" = ⟨5, 0, ""⟩ ∧
    ∀ s : String,
      ((strtokPipe s.data).length < 2 → (decode s).durationSeconds = 0) ∧
      ((strtokPipe s.data).length < 3 → (decode s).bufferBytes = 0) ∧
      ((strtokPipe s.data).length < 4 → (decode s).message = "") := by
  refine ⟨by decide, by decide, ?_⟩
  intro s
  refine ⟨?_, ?_, ?_⟩ <;> intro hlen <;>
    simp only [decode, decodeChars] <;>
    rw [List.getElem?_eq_none (by omega)]

/-- Claim C5, witness: the defaulting part of `decode_total_and_defaults`
applied to the concrete line `"x"`, whose token list has length 1. -/
theorem decode_total_and_defaults_witness :
    (strtokPipe ("x".data)).length < 2 ∧ (decode "x").durationSeconds = 0 :=
  ⟨by decide, (decode_total_and_defaults.2.2 "x").1 (by decide)⟩

/-! ## PayloadGenerator (main.cpp lines 266-272)

The server fills the send buffer once:
`mybyte = 'A'; for j in 0..bytesPerBuf: buf[j] = mybyte; mybyte++;
if (!isprint(mybyte)) mybyte = 'A';`.  Bytes are modelled as `Nat` with
the `unsigned char` increment taken modulo 256; C `isprint` (default
locale) holds exactly for 32..126. -/

/-- One step of the fill loop: increment the byte (as `unsigned char`)
and reset to `'A'` = 65 if the result is not printable. -/
def payloadStep (b : Nat) : Nat :=
  let b2 := (b + 1) % 256
  if 32 ≤ b2 ∧ b2 ≤ 126 then b2 else 65

/-- The fill loop, parameterised by the running byte value. -/
def generateGo (b : Nat) : Nat → List Nat
  | 0 => []
  | n + 1 => b :: generateGo (payloadStep b) n

/-- `PayloadGenerator.generate`: the `n` bytes the server's fill loop
stores into a buffer of size `n`. -/
def generate (n : Nat) : List Nat := generateGo 65 n

/-- Byte value after `i` iterations starting from `b`. -/
def stepIter (b : Nat) : Nat → Nat
  | 0 => b
  | i + 1 => stepIter (payloadStep b) i

theorem stepIter_succ_apply (b i : Nat) :
    stepIter b (i + 1) = payloadStep (stepIter b i) := by
  induction i generalizing b with
  | zero => rfl
  | succ i ih =>
    show stepIter (payloadStep b) (i + 1) = _
    rw [ih]
    rfl

theorem generateGo_length : ∀ (n : Nat) (b : Nat), (generateGo b n).length = n := by
  intro n
  induction n with
  | zero => intro b; rfl
  | succ n ih => intro b; simp [generateGo, ih]

theorem generateGo_get? : ∀ (n b i : Nat),
    (generateGo b n)[i]? = if i < n then some (stepIter b i) else none := by
  intro n
  induction n with
  | zero => intro b i; simp [generateGo]
  | succ n ih =>
    intro b i
    cases i with
    | zero => simp [generateGo, stepIter]
    | succ i =>
      simp only [generateGo, List.getElem?_cons_succ, ih (payloadStep b) i,
        Nat.add_lt_add_iff_right]
      rfl

theorem payloadStep_bounds {b : Nat} (h1 : 65 ≤ b) (h2 : b ≤ 126) :
    65 ≤ payloadStep b ∧ payloadStep b ≤ 126 := by
  unfold payloadStep
  rw [Nat.mod_eq_of_lt (by omega)]
  refine ⟨?_, ?_⟩ <;> (dsimp only; split <;> omega)

theorem stepIter_bounds : ∀ (i b : Nat), 65 ≤ b → b ≤ 126 →
    65 ≤ stepIter b i ∧ stepIter b i ≤ 126 := by
  intro i
  induction i with
  | zero => intro b h1 h2; exact ⟨h1, h2⟩
  | succ i ih =>
    intro b h1 h2
    obtain ⟨h3, h4⟩ := payloadStep_bounds h1 h2
    exact ih (payloadStep b) h3 h4

/-! ## Claim C7: the payload generator -/

set_option maxRecDepth 4000 in
/-- Claim C7: `generate n` has length `n` for every `n` (determinism is
immediate, `generate` being a pure function of `n`); `generate 5` is
`A,B,C,D,E`; the first byte is `'A'` = 65; each subsequent byte is the
previous plus one, wrapping back to `'A'` whenever the incremented value
leaves the printable range 32..126; and in `generate 95` position 61
holds `'~'` = 126 while position 62 wraps back to `'A'` = 65. -/
theorem generate_spec :
    (∀ n, (generate n).length = n) ∧
    generate 5 = [65, 66, 67, 68, 69] ∧
    (∀ n, 0 < n → (generate n)[0]? = some 65) ∧
    (∀ n i b, (generate n)[i]? = some b → i + 1 < n →
      (generate n)[i + 1]? = some (if 32 ≤ b + 1 ∧ b + 1 ≤ 126 then b + 1 else 65)) ∧
    (generate 95)[61]? = some 126 ∧ (generate 95)[62]? = some 65 := by
  refine ⟨fun n => generateGo_length n 65, by decide, ?_, ?_, by decide, by decide⟩
  · intro n hn
    rw [generate, generateGo_get?, if_pos hn]
    rfl
  · intro n i b hb hi
    rw [generate, generateGo_get?, if_pos (by omega : i < n)] at hb
    have hbv : b = stepIter 65 i := by
      have := Option.some.inj hb
      omega
    obtain ⟨h1, h2⟩ := stepIter_bounds i 65 (by omega) (by omega)
    rw [generate, generateGo_get?, if_pos hi, stepIter_succ_apply]
    subst hbv
    unfold payloadStep
    rw [Nat.mod_eq_of_lt (by omega)]

/-- Claim C7, witness: the parts of `generate_spec` that carry
hypotheses, applied at concrete inputs (`n = 5`, position 0). -/
theorem generate_spec_witness :
    (generate 3).length = 3 ∧ 0 < 5 ∧ (generate 5)[0]? = some 65 ∧
      (generate 5)[0 + 1]? = some (if 32 ≤ 65 + 1 ∧ 65 + 1 ≤ 126 then 65 + 1 else 65) := by
  refine ⟨generate_spec.1 3, by decide, generate_spec.2.2.1 5 (by decide), ?_⟩
  exact generate_spec.2.2.2.1 5 0 65 (generate_spec.2.2.1 5 (by decide)) (by decide)

/-! ## ReliableSend: sendAll (main.cpp lines 135-154)

`sendAll(sock, buf, nbytes)` loops `send(sock, buf+offset, nBytesToSend, 0)`;
a negative return sets `bOK=false` and breaks, otherwise `totSent` and
`offset` both advance by the returned count, and the loop repeats while
`totSent < nbytes`.  (`offset` always equals `totSent`, and the source
never shrinks `nBytesToSend`, so each call is issued at offset `totSent`.)
The transport is modelled as the list of `send` return values, one per
loop iteration; the run result records the flag, the byte total and every
`(offset, returned-count)` call made, and is `none` when the event list
is exhausted while the loop would still continue. -/

/-- Result of a `sendAll` run: the returned flag `ok`, the final
`totSent`, and the `(offset, result)` of every `send` call issued. -/
structure SendOut where
  ok : Bool
  totSent : Int
  calls : List (Int × Int)
deriving DecidableEq, Repr

/-- The `sendAll` loop with explicit accumulator state. -/
def sendAllGo (nbytes : Int) (totSent : Int) (calls : List (Int × Int)) :
    List Int → Option SendOut
  | [] => none
  | r :: rest =>
    if r < 0 then some ⟨false, totSent, calls ++ [(totSent, r)]⟩
    else if totSent + r < nbytes then sendAllGo nbytes (totSent + r) (calls ++ [(totSent, r)]) rest
    else some ⟨true, totSent + r, calls ++ [(totSent, r)]⟩

/-- `sendAll` as a function of the buffer size and the transport's
replies. -/
def sendAll (nbytes : Int) (events : List Int) : Option SendOut :=
  sendAllGo nbytes 0 [] events

theorem sendAllGo_spec : ∀ (events : List Int) (nbytes tot : Int)
    (calls : List (Int × Int)) (out : SendOut),
    (∀ b : Int, 0 ≤ b → b < tot → ∃ p ∈ calls, p.1 ≤ b ∧ b < p.1 + p.2) →
    (∀ p ∈ calls, 0 ≤ p.2) →
    sendAllGo nbytes tot calls events = some out →
    (out.ok = true → nbytes ≤ out.totSent ∧
      ∀ b : Int, 0 ≤ b → b < out.totSent → ∃ p ∈ out.calls, p.1 ≤ b ∧ b < p.1 + p.2) ∧
    (out.ok = false → ∃ pre o r, out.calls = pre ++ [(o, r)] ∧ r < 0 ∧ ∀ p ∈ pre, 0 ≤ p.2) := by
  intro events
  induction events with
  | nil => intro nbytes tot calls out _ _ h; exact absurd h (by simp [sendAllGo])
  | cons r rest ih =>
    intro nbytes tot calls out hcov hpos h
    rw [sendAllGo] at h
    by_cases hr : r < 0
    · rw [if_pos hr] at h
      obtain rfl := Option.some.inj h
      refine ⟨fun hok => by simp at hok, fun _ => ⟨calls, tot, r, rfl, hr, hpos⟩⟩
    · rw [if_neg hr] at h
      have hcov2 : ∀ b : Int, 0 ≤ b → b < tot + r →
          ∃ p ∈ calls ++ [(tot, r)], p.1 ≤ b ∧ b < p.1 + p.2 := by
        intro b hb0 hbt
        by_cases hbtot : b < tot
        · obtain ⟨p, hp, hple, hplt⟩ := hcov b hb0 hbtot
          exact ⟨p, List.mem_append_left _ hp, hple, hplt⟩
        · exact ⟨(tot, r), List.mem_append_right _ (List.mem_singleton_self _),
            by omega, by omega⟩
      have hpos2 : ∀ p ∈ calls ++ [(tot, r)], 0 ≤ p.2 := by
        intro p hp
        rcases List.mem_append.mp hp with hp | hp
        · exact hpos p hp
        · rw [List.mem_singleton.mp hp]
          omega
      by_cases hlt : tot + r < nbytes
      · rw [if_pos hlt] at h
        exact ih nbytes (tot + r) (calls ++ [(tot, r)]) out hcov2 hpos2 h
      · rw [if_neg hlt] at h
        obtain rfl := Option.some.inj h
        refine ⟨fun _ => ⟨?_, hcov2⟩, fun hok => by simp at hok⟩
        show nbytes ≤ tot + r
        omega

/-! ## Claim C6: sendAll is a total-or-error primitive -/

/-- Claim C6: whenever the `sendAll` loop terminates (`some out`), then
on success (`ok = true`) the byte total is at least the requested
`nbytes` and every byte position `0 ≤ b < nbytes` of the buffer was
covered by some send call (the calls resume at the offset after the last
successfully sent byte, whatever the partial-send sizes); and on any
negative return from `send` the run ends immediately with failure: the
last recorded call is the negative one and every earlier call had a
non-negative result.  In particular `sendAll` never reports success with
fewer bytes sent than requested. -/
theorem sendAll_total_or_error (nbytes : Int) (events : List Int) (out : SendOut)
    (h : sendAll nbytes events = some out) :
    (out.ok = true → nbytes ≤ out.totSent ∧
      ∀ b : Int, 0 ≤ b → b < nbytes → ∃ p ∈ out.calls, p.1 ≤ b ∧ b < p.1 + p.2) ∧
    (out.ok = false → ∃ pre o r, out.calls = pre ++ [(o, r)] ∧ r < 0 ∧ ∀ p ∈ pre, 0 ≤ p.2) := by
  have hs := sendAllGo_spec events nbytes 0 [] out (by intro b hb0 hbt; omega)
    (by intro p hp; exact absurd hp (List.not_mem_nil p)) h
  refine ⟨fun hok => ?_, hs.2⟩
  obtain ⟨htot, hcov⟩ := hs.1 hok
  exact ⟨htot, fun b hb0 hbn => hcov b hb0 (by omega)⟩

/-- Claim C6, witness: `sendAll` with `nbytes = 3` against transport
replies `[2, 2]` succeeds with 4 bytes sent via calls at offsets 0 and 2;
the theorem applied there shows `3 ≤ 4` and coverage of byte 1. -/
theorem sendAll_total_or_error_witness :
    sendAll 3 [2, 2] = some ⟨true, 4, [(0, 2), (2, 2)]⟩ ∧ (3 : Int) ≤ 4 :=
  ⟨rfl, ((sendAll_total_or_error 3 [2, 2] ⟨true, 4, [(0, 2), (2, 2)]⟩ rfl).1 rfl).1⟩

/-! ## BoundedReceive: recvAll (main.cpp lines 163-208)

Each iteration of the `recvAll` loop performs a `select` with a 5-second
timeout and, when the socket is ready, one `recv`.  The environment is
modelled as one event per iteration: `selErr` (`select` returned a
negative value), `timeout` (`select` returned 0), or `recvRes n` (the
socket was ready and `recv` returned `n`: negative = transport error,
zero = orderly close, positive = bytes read).  The loop body mirrors the
source: a `select` error breaks (returning the accumulated count),
a timeout overwrites the count with `-1` and breaks, a `recv` error
breaks, zero sets `bEOF` and breaks, and a positive count accumulates
while `bytesReadSoFar < nbytes`.  The run is `none` if the event list is
exhausted while the loop would still continue. -/

/-- One iteration's environment event for `recvAll`. -/
inductive REvent where
  | selErr : REvent
  | timeout : REvent
  | recvRes : Int → REvent
deriving DecidableEq, Repr

/-- How a terminating `recvAll` run ended (instrumentation only: which
`break` fired, or that the buffer filled). -/
inductive REnd where
  | selErrEnd : REnd
  | timeoutEnd : REnd
  | recvErrEnd : REnd
  | eofEnd : REnd
  | fullEnd : REnd
deriving DecidableEq, Repr

/-- Result of a `recvAll` run: the returned byte count, the `bEOF` flag,
and the way the loop ended. -/
structure RecvOut where
  bytes : Int
  eof : Bool
  fin : REnd
deriving DecidableEq, Repr

/-- The `recvAll` loop with the accumulated count as state. -/
def recvAllGo (nbytes : Int) (soFar : Int) : List REvent → Option RecvOut
  | [] => none
  | e :: rest =>
    match e with
    | .selErr => some ⟨soFar, false, .selErrEnd⟩
    | .timeout => some ⟨-1, false, .timeoutEnd⟩
    | .recvRes n =>
      if n < 0 then some ⟨soFar, false, .recvErrEnd⟩
      else if n = 0 then some ⟨soFar, true, .eofEnd⟩
      else if soFar + n < nbytes then recvAllGo nbytes (soFar + n) rest
      else some ⟨soFar + n, false, .fullEnd⟩

/-- `recvAll(sock, pbuf, nbytes, bEOF)` as a function of the buffer size
and the per-iteration environment events. -/
def recvAll (nbytes : Int) (events : List REvent) : Option RecvOut :=
  recvAllGo nbytes 0 events

/-- Environment sanity: `recv` is called with count `nbytes - soFar`, so
a POSIX-conforming transport never returns more than that. -/
def recvWfGo (nbytes : Int) (soFar : Int) : List REvent → Bool
  | [] => true
  | e :: rest =>
    match e with
    | .recvRes n =>
      decide (n ≤ nbytes - soFar) &&
        (if 0 < n then recvWfGo nbytes (soFar + n) rest else recvWfGo nbytes soFar rest)
    | _ => recvWfGo nbytes soFar rest

/-- Well-formedness of an event list for a `recvAll` run from zero. -/
def recvWf (nbytes : Int) (events : List REvent) : Bool := recvWfGo nbytes 0 events

theorem recvAllGo_ends : ∀ (events : List REvent) (nbytes soFar : Int) (out : RecvOut),
    0 ≤ soFar → recvAllGo nbytes soFar events = some out →
    (out.fin = REnd.timeoutEnd → out.bytes = -1 ∧ out.eof = false) ∧
    (out.fin = REnd.selErrEnd → 0 ≤ out.bytes ∧ out.eof = false) ∧
    (out.fin = REnd.recvErrEnd → 0 ≤ out.bytes ∧ out.eof = false) ∧
    (out.fin = REnd.eofEnd → 0 ≤ out.bytes ∧ out.eof = true) ∧
    (out.fin = REnd.fullEnd → 0 < out.bytes ∧ out.eof = false) ∧
    (out.bytes = -1 → out.fin = REnd.timeoutEnd) := by
  intro events
  induction events with
  | nil => intro nbytes soFar out _ h; exact absurd h (by simp [recvAllGo])
  | cons e rest ih =>
    intro nbytes soFar out hsf h
    match e with
    | .selErr =>
      simp only [recvAllGo, Option.some.injEq] at h
      subst h
      refine ⟨by simp, fun _ => ⟨hsf, rfl⟩, by simp, by simp, by simp, fun hb => ?_⟩
      exact absurd hb (by show ¬ soFar = -1; omega)
    | .timeout =>
      simp only [recvAllGo, Option.some.injEq] at h
      subst h
      exact ⟨fun _ => ⟨rfl, rfl⟩, by simp, by simp, by simp, by simp, fun _ => rfl⟩
    | .recvRes n =>
      simp only [recvAllGo] at h
      by_cases hn : n < 0
      · rw [if_pos hn, Option.some.injEq] at h
        subst h
        refine ⟨by simp, by simp, fun _ => ⟨hsf, rfl⟩, by simp, by simp, fun hb => ?_⟩
        exact absurd hb (by show ¬ soFar = -1; omega)
      · rw [if_neg hn] at h
        by_cases hz : n = 0
        · rw [if_pos hz, Option.some.injEq] at h
          subst h
          refine ⟨by simp, by simp, by simp, fun _ => ⟨hsf, rfl⟩, by simp, fun hb => ?_⟩
          exact absurd hb (by show ¬ soFar = -1; omega)
        · rw [if_neg hz] at h
          by_cases hlt : soFar + n < nbytes
          · rw [if_pos hlt] at h
            exact ih nbytes (soFar + n) out (by omega) h
          · rw [if_neg hlt, Option.some.injEq] at h
            subst h
            refine ⟨by simp, by simp, by simp, by simp,
              fun _ => ⟨by show 0 < soFar + n; omega, rfl⟩, fun hb => ?_⟩
            exact absurd hb (by show ¬ soFar + n = -1; omega)

theorem recvAllGo_bounds : ∀ (events : List REvent) (nbytes soFar : Int) (out : RecvOut),
    0 ≤ soFar → soFar < nbytes → recvWfGo nbytes soFar events = true →
    recvAllGo nbytes soFar events = some out →
    (out.fin = REnd.selErrEnd → out.bytes < nbytes) ∧
    (out.fin = REnd.recvErrEnd → out.bytes < nbytes) ∧
    (out.fin = REnd.eofEnd → out.bytes < nbytes) ∧
    (out.fin = REnd.fullEnd → out.bytes = nbytes) := by
  intro events
  induction events with
  | nil => intro nbytes soFar out _ _ _ h; exact absurd h (by simp [recvAllGo])
  | cons e rest ih =>
    intro nbytes soFar out hsf hlt hwf h
    match e with
    | .selErr =>
      simp only [recvAllGo, Option.some.injEq] at h
      subst h
      exact ⟨fun _ => hlt, by simp, by simp, by simp⟩
    | .timeout =>
      simp only [recvAllGo, Option.some.injEq] at h
      subst h
      exact ⟨by simp, by simp, by simp, by simp⟩
    | .recvRes n =>
      simp only [recvWfGo, Bool.and_eq_true, decide_eq_true_eq] at hwf
      obtain ⟨hwn, hwrest⟩ := hwf
      simp only [recvAllGo] at h
      by_cases hn : n < 0
      · rw [if_pos hn, Option.some.injEq] at h
        subst h
        exact ⟨by simp, fun _ => hlt, by simp, by simp⟩
      · rw [if_neg hn] at h
        by_cases hz : n = 0
        · rw [if_pos hz, Option.some.injEq] at h
          subst h
          exact ⟨by simp, by simp, fun _ => hlt, by simp⟩
        · rw [if_neg hz] at h
          rw [if_pos (by omega : 0 < n)] at hwrest
          by_cases hfull : soFar + n < nbytes
          · rw [if_pos hfull] at h
            exact ih nbytes (soFar + n) out (by omega) hfull hwrest h
          · rw [if_neg hfull, Option.some.injEq] at h
            subst h
            refine ⟨by simp, by simp, by simp, fun _ => ?_⟩
            show soFar + n = nbytes
            omega

/-! ## Claims C3 and C9: the recvAll contract -/

/-- Claim C3, counterexample.  The claim says `recvAll` has exactly three
outcomes: the `-1` timeout sentinel, a short count with `eof = true`, or
the full `maxBytes` with `eof = false`.  A transport error refutes this:
with `maxBytes = 4` and a single `recv` returning `-1`, the call returns
byte count `0` with `eof = false` — none of the three claimed shapes. -/
theorem recvAll_three_outcomes_counterexample :
    recvAll 4 [REvent.recvRes (-1)] = some ⟨0, false, REnd.recvErrEnd⟩ ∧
      decide ((0 : Int) = -1 ∨ (false = true) ∨ (0 : Int) = 4) = false :=
  ⟨rfl, by decide⟩

/-- Claim C3, amended: for `maxBytes > 0` and a POSIX-conforming
transport, a terminating `recvAll` call has exactly four outcomes: (a) a
`select` timeout returns the sentinel `-1` with `eof = false` (discarding
any bytes already accumulated); (b) a zero `recv` sets `eof = true` and
returns the non-negative bytes accumulated so far, always less than
`maxBytes`; (c) positive reads accumulate until `maxBytes` is reached,
returning exactly `maxBytes` with `eof = false`; and (d) — the outcome
the claim omits — a negative `select` or `recv` return ends the call with
the non-negative accumulated count (less than `maxBytes`) and
`eof = false`. -/
theorem recvAll_outcomes (nbytes : Int) (events : List REvent) (out : RecvOut)
    (hpos : 0 < nbytes) (hwf : recvWf nbytes events = true)
    (h : recvAll nbytes events = some out) :
    (out.fin = REnd.timeoutEnd → out.bytes = -1 ∧ out.eof = false) ∧
    (out.fin = REnd.eofEnd →
      out.eof = true ∧ 0 ≤ out.bytes ∧ out.bytes < nbytes) ∧
    (out.fin = REnd.fullEnd → out.bytes = nbytes ∧ out.eof = false) ∧
    ((out.fin = REnd.selErrEnd ∨ out.fin = REnd.recvErrEnd) →
      out.eof = false ∧ 0 ≤ out.bytes ∧ out.bytes < nbytes) := by
  have he := recvAllGo_ends events nbytes 0 out (le_refl 0) h
  have hb := recvAllGo_bounds events nbytes 0 out (le_refl 0) hpos hwf h
  refine ⟨he.1, fun hf => ?_, fun hf => ⟨hb.2.2.2 hf, (he.2.2.2.2.1 hf).2⟩, fun hf => ?_⟩
  · exact ⟨(he.2.2.2.1 hf).2, (he.2.2.2.1 hf).1, hb.2.2.1 hf⟩
  · rcases hf with hf | hf
    · exact ⟨(he.2.1 hf).2, (he.2.1 hf).1, hb.1 hf⟩
    · exact ⟨(he.2.2.1 hf).2, (he.2.2.1 hf).1, hb.2.1 hf⟩

/-- Claim C3 (amended), witness: a run with `maxBytes = 4` receiving 2
bytes and then a clean close terminates as outcome (b): 2 bytes,
`eof = true`. -/
theorem recvAll_outcomes_witness :
    (0 : Int) < 4 ∧ recvWf 4 [REvent.recvRes 2, REvent.recvRes 0] = true ∧
      recvAll 4 [REvent.recvRes 2, REvent.recvRes 0] = some ⟨2, true, REnd.eofEnd⟩ ∧
      (true = true ∧ (0 : Int) ≤ 2 ∧ (2 : Int) < 4) :=
  ⟨by decide, by decide, rfl,
    (recvAll_outcomes 4 [REvent.recvRes 2, REvent.recvRes 0] ⟨2, true, REnd.eofEnd⟩
      (by decide) (by decide) rfl).2.1 rfl⟩

/-- Claim C9: in `recvAll` only the `select` timeout produces the `-1`
sentinel, and it does so even when earlier iterations had already
accumulated bytes (the accumulation is discarded).  A negative return
from `recv` itself — a transport error — instead ends the call with the
non-negative byte count accumulated so far and `eof = false`, which is
exactly the shape of a successful short read. -/
theorem recvAll_recv_error_short_read (nbytes : Int) (events : List REvent)
    (out : RecvOut) (h : recvAll nbytes events = some out) :
    (out.fin = REnd.recvErrEnd → 0 ≤ out.bytes ∧ out.eof = false) ∧
    (out.bytes = -1 ↔ out.fin = REnd.timeoutEnd) := by
  have he := recvAllGo_ends events nbytes 0 out (le_refl 0) h
  exact ⟨he.2.2.1, ⟨he.2.2.2.2.2, fun hf => (he.1 hf).1⟩⟩

/-- Claim C9, witness: with `maxBytes = 5`, two bytes arrive and then the
readiness wait times out; the call returns `-1` (the accumulated 2 bytes
are discarded), and the theorem's iff identifies the timeout. -/
theorem recvAll_recv_error_short_read_witness :
    recvAll 5 [REvent.recvRes 2, REvent.timeout] = some ⟨-1, false, REnd.timeoutEnd⟩ ∧
      ((-1 : Int) = -1 ∧ REnd.timeoutEnd = REnd.timeoutEnd) :=
  ⟨rfl, ⟨(recvAll_recv_error_short_read 5 [REvent.recvRes 2, REvent.timeout]
    ⟨-1, false, REnd.timeoutEnd⟩ rfl).2.mpr rfl, rfl⟩⟩

/-! ## ThroughputClient: the receive loop (main.cpp lines 376-414)

Each iteration calls `recvAll` and the clock; the environment supplies,
per iteration, the `recvAll` return value `r : Int` (a `ssize_t`), the
`bEOF` flag it set, and the current time.  The crucial detail of the
source is the declaration `size_t nBytesRec`: the `ssize_t` return of
`recvAll` is converted to the unsigned `size_t`, so the test
`nBytesRec >= 0` in `if(nBytesRec >= 0 || bEOF)` is an unsigned
comparison that always holds, and `totBytesRec += nBytesRec` adds the
wrapped value (e.g. `2^64 - 1` for a returned `-1`) to the signed
`ssize_t` accumulators. -/

/-- Conversion of a signed 64-bit value to `size_t` (the value of
`(size_t) r` as a natural number). -/
def toU64 (r : Int) : Nat := (r.emod (2 ^ 64)).toNat

/-- Two's-complement wrap of an integer into the `ssize_t` range. -/
def wrapS64 (n : Int) : Int := (n + 2 ^ 63).emod (2 ^ 64) - 2 ^ 63

/-- One iteration's environment for the client loop: the value returned
by `recvAll`, the `bEOF` flag it produced, and `getCurrentSeconds()`. -/
structure CIter where
  r : Int
  eof : Bool
  timeNow : Int
deriving DecidableEq, Repr

/-- The client loop's mutable locals: `totBytesRec`,
`bytesRecSinceLastUIUpdate`, `nCallsToTimer` and `timeLastUIUpdate`. -/
structure CState where
  totBytesRec : Int
  bytesSinceUI : Int
  nCalls : Int
  timeLastUI : Int
deriving DecidableEq, Repr

/-- How a client-loop run ends: `finalReport` is the `bEOF` branch that
logs the final average and breaks; `errorAbort` is the `else` branch that
logs "Unexpected error" and breaks without a final report; `running`
means the event list was exhausted with the loop still iterating. -/
inductive ClientOut where
  | running : CState → ClientOut
  | finalReport : CState → ClientOut
  | errorAbort : CState → ClientOut
deriving DecidableEq, Repr

/-- The client receive loop, one `CIter` event per iteration.  The
condition `0 ≤ nBytesRec` is the source's `nBytesRec >= 0` — an unsigned
(`size_t`/`Nat`) comparison. -/
def clientLoopGo (st : CState) : List CIter → ClientOut
  | [] => .running st
  | it :: rest =>
    let nBytesRec : Nat := toU64 it.r
    let nCalls2 := st.nCalls + 1
    if 0 ≤ nBytesRec ∨ it.eof then
      let tot2 := wrapS64 (st.totBytesRec + nBytesRec)
      let bytes2 := wrapS64 (st.bytesSinceUI + nBytesRec)
      let secsSinceUI := it.timeNow - st.timeLastUI
      let st2 : CState :=
        if 0 < nBytesRec then
          if 1 ≤ secsSinceUI then ⟨tot2, 0, nCalls2, it.timeNow⟩
          else ⟨tot2, bytes2, nCalls2, st.timeLastUI⟩
        else ⟨tot2, bytes2, nCalls2, st.timeLastUI⟩
      if it.eof then .finalReport st2 else clientLoopGo st2 rest
    else
      .errorAbort ⟨st.totBytesRec, st.bytesSinceUI, nCalls2, st.timeLastUI⟩

/-- The client loop as entered from `handleClientConnection`: all
counters zero, `timeLastUIUpdate = timeStart`. -/
def clientLoop (timeStart : Int) (iters : List CIter) : ClientOut :=
  clientLoopGo ⟨0, 0, 0, timeStart⟩ iters

/-- Whether a client-loop outcome is the error-abort branch. -/
def isErrorAbort : ClientOut → Bool
  | .errorAbort _ => true
  | _ => false

/-! ## Claim C1: client behaviour on a receive error -/

/-- Claim C1 (code bug).  The spec — and the loop's own
`else { perror("Unexpected error..."); break; }` branch — requires every
negative `recvAll` return without `bEOF` to end the session immediately
with no final report.  Because `nBytesRec` is declared `size_t`, the
guard `nBytesRec >= 0` is an unsigned comparison that is always true, so
that branch is unreachable: first conjunct — on the timeout sentinel
`-1` with `bEOF = false` the loop keeps running (one iteration consumed,
no abort, no final report) and the wrapped addition has corrupted both
byte counters to `-1`; second conjunct — no event list whatsoever can
make the loop take the error branch. -/
theorem clientLoop_timeout_keeps_looping :
    clientLoop 0 [⟨-1, false, 0⟩] = ClientOut.running ⟨-1, -1, 1, 0⟩ ∧
      ∀ (timeStart : Int) (iters : List CIter),
        isErrorAbort (clientLoop timeStart iters) = false := by
  refine ⟨by decide, fun timeStart iters => ?_⟩
  suffices h : ∀ (l : List CIter) (st : CState), isErrorAbort (clientLoopGo st l) = false by
    exact h iters ⟨0, 0, 0, timeStart⟩
  intro l
  induction l with
  | nil => intro st; rfl
  | cons it rest ih =>
    intro st
    rw [clientLoopGo]
    rw [if_pos (Or.inl (Nat.zero_le _))]
    by_cases he : it.eof
    · rw [if_pos he]; rfl
    · rw [if_neg he]; exact ih _

/-! ## ThroughputServer: handleServerConnection (main.cpp lines 210-304)

The negotiation loop `recv`s into a 256-byte buffer (255 usable bytes)
until a newline appears, the buffer fills, or `recv` returns zero (close)
or a negative value (error); any of the breaks falls through — there is
no early return — to the `strtok` decode, the payload fill and the
streaming loop.  The streaming loop calls `sendAll` with the same buffer,
breaks on a send failure, and otherwise adds `bytesPerBuf` to the
`size_t` counter `totBytesSent` and increments `nSends`, repeating while
the elapsed time is below the negotiated duration. -/

/-- One negotiation-loop event: the outcome of one `recv`:
a positive read of the given characters, an orderly close (`0`), or an
error (negative). -/
inductive NegEvent where
  | chunk : List Char → NegEvent
  | eof : NegEvent
  | err : NegEvent
deriving DecidableEq, Repr

/-- How the negotiation read loop ended. -/
inductive NegEnd where
  | newlineEnd : NegEnd
  | eofEnd : NegEnd
  | errEnd : NegEnd
  | fullEnd : NegEnd
deriving DecidableEq, Repr

/-- The negotiation read loop: accumulate chunks until a newline is in
the buffer, the 255 usable bytes are exhausted, or the connection closes
or errors.  Returns the accumulated buffer and the way the loop ended
(`none` if the events ran out mid-loop). -/
def negotiateGo (buf : List Char) : List NegEvent → Option (List Char × NegEnd)
  | [] => none
  | e :: rest =>
    match e with
    | .chunk s =>
      let buf2 := buf ++ s
      if '\n' ∈ buf2 then some (buf2, .newlineEnd)
      else if buf2.length < 255 then negotiateGo buf2 rest
      else some (buf2, .fullEnd)
    | .eof => some (buf, .eofEnd)
    | .err => some (buf, .errEnd)

/-- The negotiation loop from an empty buffer. -/
def negotiate (events : List NegEvent) : Option (List Char × NegEnd) :=
  negotiateGo [] events

/-- The streaming loop.  Per iteration the environment supplies the
`sendAll` success flag and the `getCurrentSeconds()` reading.  State is
`(totBytesSent, nSends, number of sendAll calls made)`; the two counters
are `size_t`, so they wrap modulo `2^64`, and `bytesPerBuf` (an `int`) is
converted to `size_t` by `toU64` when added.  Exhausting the event list
returns the state observed at that point of the loop. -/
def serverStreamGo (bpbU : Nat) (secsToSend : Int) (timeStart : Int)
    (timeLastUI : Int) (tot nSends calls : Nat) :
    List (Bool × Int) → Nat × Nat × Nat
  | [] => (tot, nSends, calls)
  | (bOK, timeNow) :: rest =>
    let calls2 := calls + 1
    if bOK then
      let tot2 := (tot + bpbU) % 2 ^ 64
      let n2 := (nSends + 1) % 2 ^ 64
      let timeUI2 := if 1 ≤ timeNow - timeLastUI then timeNow else timeLastUI
      if timeNow - timeStart < secsToSend then
        serverStreamGo bpbU secsToSend timeStart timeUI2 tot2 n2 calls2 rest
      else (tot2, n2, calls2)
    else (tot, nSends, calls2)

/-- The streaming loop as entered after the payload fill: counters zero,
`timeLastUIUpdate = timeStart`. -/
def serverStream (bytesPerBuf secsToSend timeStart : Int)
    (events : List (Bool × Int)) : Nat × Nat × Nat :=
  serverStreamGo (toU64 bytesPerBuf) secsToSend timeStart timeStart 0 0 0 events

/-- Observable result of one accepted server connection. -/
structure ServerResult where
  req : TransferRequest
  payload : List Nat
  totBytesSent : Nat
  nSends : Nat
  sendCalls : Nat
deriving DecidableEq, Repr

/-- `handleServerConnection`: negotiation, `strtok` decode of whatever
the buffer holds, payload fill (`generate`), then the streaming loop.
Every way the negotiation loop ends — newline, buffer full, close or
error — falls through to the decode and the streaming loop, exactly as
in the source (which has no early return). -/
def handleServerConn (negEvents : List NegEvent) (timeStart : Int)
    (streamEvents : List (Bool × Int)) : Option ServerResult :=
  match negotiate negEvents with
  | none => none
  | some (buf, _) =>
    let req := decodeChars buf
    let payload := generate req.bufferBytes.toNat
    let r := serverStream req.bufferBytes req.durationSeconds timeStart streamEvents
    some ⟨req, payload, r.1, r.2.1, r.2.2⟩

theorem serverStreamGo_calls_le : ∀ (events : List (Bool × Int)) (bpbU : Nat)
    (secsToSend timeStart timeLastUI : Int) (tot nSends calls : Nat),
    calls ≤ (serverStreamGo bpbU secsToSend timeStart timeLastUI tot nSends calls events).2.2 := by
  intro events
  induction events with
  | nil => intro _ _ _ _ _ _ _; exact le_refl _
  | cons e rest ih =>
    intro bpbU secsToSend timeStart timeLastUI tot nSends calls
    obtain ⟨bOK, timeNow⟩ := e
    rw [serverStreamGo]
    by_cases hb : bOK = true
    · rw [if_pos hb]
      dsimp only
      by_cases ht : timeNow - timeStart < secsToSend
      · rw [if_pos ht]
        exact le_trans (Nat.le_succ calls) (ih bpbU secsToSend timeStart _ _ _ (calls + 1))
      · rw [if_neg ht]
        exact Nat.le_succ calls
    · rw [if_neg hb]
      exact Nat.le_succ calls

theorem serverStreamGo_invariant : ∀ (events : List (Bool × Int)) (bpbU : Nat)
    (secsToSend timeStart timeLastUI : Int) (tot nSends calls : Nat),
    tot = nSends * bpbU % 2 ^ 64 →
    (serverStreamGo bpbU secsToSend timeStart timeLastUI tot nSends calls events).1 =
      (serverStreamGo bpbU secsToSend timeStart timeLastUI tot nSends calls events).2.1 *
        bpbU % 2 ^ 64 := by
  intro events
  induction events with
  | nil =>
    intro _ _ _ _ _ _ _ hinv
    exact hinv
  | cons e rest ih =>
    intro bpbU secsToSend timeStart timeLastUI tot nSends calls hinv
    obtain ⟨bOK, timeNow⟩ := e
    rw [serverStreamGo]
    by_cases hb : bOK = true
    · rw [if_pos hb]
      dsimp only
      have hstep : (tot + bpbU) % 2 ^ 64 = (nSends + 1) % 2 ^ 64 * bpbU % 2 ^ 64 := by
        rw [hinv, Nat.mod_add_mod, Nat.mod_mul_mod, Nat.succ_mul]
      by_cases ht : timeNow - timeStart < secsToSend
      · rw [if_pos ht]
        exact ih bpbU secsToSend timeStart _ _ _ _ hstep
      · rw [if_neg ht]
        exact hstep
    · rw [if_neg hb]
      exact hinv

theorem serverStreamGo_calls_cons (bpbU : Nat) (secsToSend timeStart timeLastUI : Int)
    (tot nSends calls : Nat) (e : Bool × Int) (rest : List (Bool × Int)) :
    calls + 1 ≤
      (serverStreamGo bpbU secsToSend timeStart timeLastUI tot nSends calls (e :: rest)).2.2 := by
  obtain ⟨bOK, timeNow⟩ := e
  rw [serverStreamGo]
  by_cases hb : bOK = true
  · rw [if_pos hb]
    dsimp only
    by_cases ht : timeNow - timeStart < secsToSend
    · rw [if_pos ht]
      exact serverStreamGo_calls_le rest bpbU secsToSend timeStart _ _ _ (calls + 1)
    · rw [if_neg ht]
  · rw [if_neg hb]

/-! ## Claim C2: server behaviour when the client closes mid-negotiation -/

/-- Claim C2, counterexample.  The claim says that when the client's
connection closes (a zero `recv`) before a newline arrived, the server
aborts the session and neither decodes the partial frame nor enters the
streaming loop.  In this run the client sends the partial frame
`"send|2|8|hi"` (no newline) and closes: the server logs the early EOF
but then falls through, decodes the partial frame to
`⟨2, 8, "hi"⟩`, generates an 8-byte payload, and performs a send call in
the streaming loop (`sendCalls = 1`, 8 bytes counted). -/
theorem server_negotiation_eof_counterexample :
    negotiate [NegEvent.chunk "send|2|8|hi".data, NegEvent.eof] =
      some ("send|2|8|hi".data, NegEnd.eofEnd) ∧
    handleServerConn [NegEvent.chunk "send|2|8|hi".data, NegEvent.eof] 0 [(true, 3)] =
      some ⟨⟨2, 8, "hi"⟩, generate 8, 8, 1, 1⟩ :=
  ⟨by decide, by decide⟩

/-- Claim C2, amended: when the negotiation read loop ends because the
connection closed before a newline was seen, the server logs the event
and stops reading, but it does not abort: `handleServerConnection` falls
through, decodes whatever partial frame is in the buffer (missing fields
defaulting to zero/empty), and enters the streaming loop — at least one
`sendAll` call is made whenever the loop body runs at all — before
closing the connection and returning to the accept loop (the function
always returns, so the listening loop is never crashed). -/
theorem server_negotiation_eof_falls_through
    (negEvents : List NegEvent) (buf : List Char) (timeStart : Int)
    (streamEvents : List (Bool × Int))
    (hneg : negotiate negEvents = some (buf, NegEnd.eofEnd))
    (hne : streamEvents ≠ []) :
    (handleServerConn negEvents timeStart streamEvents).map ServerResult.req =
      some (decodeChars buf) ∧
    1 ≤ ((handleServerConn negEvents timeStart streamEvents).map
      ServerResult.sendCalls).getD 0 := by
  unfold handleServerConn
  rw [hneg]
  refine ⟨rfl, ?_⟩
  obtain ⟨e, rest, rfl⟩ := List.exists_cons_of_ne_nil hne
  show 1 ≤ (serverStream (decodeChars buf).bufferBytes (decodeChars buf).durationSeconds
    timeStart (e :: rest)).2.2
  exact serverStreamGo_calls_cons (toU64 (decodeChars buf).bufferBytes)
    (decodeChars buf).durationSeconds timeStart timeStart 0 0 0 e rest

/-- Claim C2 (amended), witness: the client sends `"send"` and closes;
the server decodes the partial frame and makes a send call. -/
theorem server_negotiation_eof_falls_through_witness :
    negotiate [NegEvent.chunk "send".data, NegEvent.eof] =
      some ("send".data, NegEnd.eofEnd) ∧
    (handleServerConn [NegEvent.chunk "send".data, NegEvent.eof] 0 [(true, 0)]).map
      ServerResult.req = some (decodeChars "send".data) ∧
    1 ≤ ((handleServerConn [NegEvent.chunk "send".data, NegEvent.eof] 0 [(true, 0)]).map
      ServerResult.sendCalls).getD 0 := by
  have h := server_negotiation_eof_falls_through
    [NegEvent.chunk "send".data, NegEvent.eof] "send".data 0 [(true, 0)]
    (by decide) (by decide)
  exact ⟨by decide, h.1, h.2⟩

/-! ## Claim C10: the streaming-counter invariant -/

/-- Claim C10: at every observation point of the server streaming loop —
in particular at the final throughput log, whether the loop ended by
elapsed time, by a send failure, or is still mid-run — the cumulative
`size_t` counter satisfies `totBytesSent = nSends * bytesPerBuf`
(computed in `size_t` arithmetic, i.e. modulo `2^64`, with `bytesPerBuf`
converted from `int` to `size_t` by `toU64`): the counter is incremented
by exactly `bytesPerBuf` only after a successful `sendAll`.  The second
conjunct isolates the failure case: a run whose first `sendAll` fails
leaves both counters at zero after exactly one call. -/
theorem server_stream_invariant :
    (∀ (bytesPerBuf secsToSend timeStart : Int) (events : List (Bool × Int)),
      (serverStream bytesPerBuf secsToSend timeStart events).1 =
        (serverStream bytesPerBuf secsToSend timeStart events).2.1 *
          toU64 bytesPerBuf % 2 ^ 64) ∧
    (∀ (bytesPerBuf secsToSend timeStart timeNow : Int) (rest : List (Bool × Int)),
      serverStream bytesPerBuf secsToSend timeStart ((false, timeNow) :: rest) =
        (0, 0, 1)) := by
  constructor
  · intro bytesPerBuf secsToSend timeStart events
    exact serverStreamGo_invariant events (toU64 bytesPerBuf) secsToSend timeStart
      timeStart 0 0 0 (by simp)
  · intro bytesPerBuf secsToSend timeStart timeNow rest
    rfl

/-! ## Command line and process exit code (main.cpp lines 456-577, 628-637)

`parseArg` splits one `argv` entry: a leading `'-'` followed by nothing
is invalid; otherwise the name is everything up to the first `':'` and
the value everything after it; an entry with no dash is all value.
`parseCmdLine` folds the entries into `Settings`, latching the failure
flag on an invalid entry, an invalid mode or an unrecognized name (it
keeps scanning), and fails if no mode was set.  `doMain` runs the chosen
mode when parsing succeeded, and otherwise prints the usage text and
returns its initial `retval` — which is still `0`.  On the client side,
a failed `connect` returns the raw `errno` and a failed control-frame
`sendAll` returns `3`; otherwise `handleClientConnection` returns `0`. -/

/-- `Settings::enum_mode`. -/
inductive Mode where
  | unknown : Mode
  | server : Mode
  | client : Mode
deriving DecidableEq, Repr

/-- The `Settings` structure with its initializers. -/
structure Settings where
  mode : Mode
  remoteip : String
  secs : Int
  bytes_per_buf : Int
  port : Int
  msg : String
  logfilename : String
deriving DecidableEq, Repr

/-- Default-initialized `Settings` (mode unknown, secs 10, buffer 12288,
port 54811). -/
def defaultSettings : Settings :=
  ⟨Mode.unknown, "", 10, 12288, 54811, "", ""⟩

/-- `strchr(l, c)` viewed as a splitter: the characters before the first
`':'` and, when a `':'` exists, those after it. -/
def splitAtColon : List Char → List Char × Option (List Char)
  | [] => ([], none)
  | c :: rest =>
    if c = ':' then ([], some rest)
    else
      let p := splitAtColon rest
      (c :: p.1, p.2)

/-- `parseArg`: `none` models `bOK = false` (a bare `"-"`); otherwise the
`(name, val)` pair it stores. -/
def parseArg (arg : String) : Option (String × String) :=
  match arg.data with
  | [] => some ("", "")
  | c :: rest =>
    if c = '-' then
      if rest = [] then none
      else
        match splitAtColon rest with
        | (namePart, some valPart) => some (String.mk namePart, String.mk valPart)
        | (namePart, none) => some (String.mk namePart, "")
    else some ("", arg)

/-- The body of `parseCmdLine`'s recognition chain for one parsed
`(name, val)` pair: the updated settings and the updated `bOK` flag. -/
def applyArg (st : Settings) (ok : Bool) (name val : String) : Settings × Bool :=
  if name = "mode" then
    if val = "server" then
      ({ st with mode := Mode.server, logfilename := "netthruserver.log" }, ok)
    else if val = "client" then
      ({ st with mode := Mode.client, logfilename := "netthruclient.log" }, ok)
    else (st, false)
  else if name = "remoteip" then ({ st with remoteip := val }, ok)
  else if name = "secs" then ({ st with secs := atoiStr val }, ok)
  else if name = "nbytes" then ({ st with bytes_per_buf := atoiStr val }, ok)
  else if name = "port" then ({ st with port := atoiStr val }, ok)
  else if name = "msg" then ({ st with msg := val }, ok)
  else (st, false)

/-- The argument loop of `parseCmdLine` over `argv[1..]`. -/
def parseCmdLineGo (st : Settings) (ok : Bool) : List String → Settings × Bool
  | [] => (st, ok)
  | arg :: rest =>
    match parseArg arg with
    | none => parseCmdLineGo st false rest
    | some (name, val) =>
      let p := applyArg st ok name val
      parseCmdLineGo p.1 p.2 rest

/-- `parseCmdLine`: run the loop from the defaults and fail if no mode
was selected. -/
def parseCmdLine (args : List String) : Settings × Bool :=
  let p := parseCmdLineGo defaultSettings true args
  if p.1.mode = Mode.unknown then (p.1, false) else p

/-- The three ways the client run can end, with the data `doClient` and
`handleClientConnection` turn into a return value. -/
inductive ClientOutcome where
  | connectFail : Int → ClientOutcome
  | frameSendFail : ClientOutcome
  | normal : ClientOutcome
deriving DecidableEq, Repr

/-- `doClient`'s return value: the raw `errno` when `connect` failed,
`3` when sending the control frame failed, `0` otherwise. -/
def doClientExit : ClientOutcome → Int
  | .connectFail e => e
  | .frameSendFail => 3
  | .normal => 0

/-- The process exit code of `doMain` (and hence `main`): `some 0` when
parsing fails (usage is printed but `retval` is still `0`), the client's
return value in client mode, and `none` in server mode (`doServer`
loops accepting forever and never returns). -/
def doMainExit (args : List String) (out : ClientOutcome) : Option Int :=
  let p := parseCmdLine args
  if p.2 then
    if p.1.mode = Mode.server then none
    else some (doClientExit out)
  else some 0

/-! ## Claim C8: process exit codes -/

/-- Claim C8, counterexample.  The claim says the exit code is non-zero
on malformed command-line arguments.  An empty argument list is malformed
(no mode is selected, `parseCmdLine` returns `false`, usage is printed) —
yet `doMain` returns its untouched `retval`, which is `0`. -/
theorem doMainExit_malformed_counterexample :
    (parseCmdLine []).2 = false ∧ doMainExit [] ClientOutcome.normal = some 0 :=
  ⟨by decide, by decide⟩

/-- Claim C8, amended: the exit code is `0` on normal client completion
and also `0` on malformed command-line arguments (usage is printed but
the failure does not reach the exit code); on client connect failure the
exit code is the raw OS `errno` value (hence non-zero exactly when
`errno` is), and a failure to send the control frame exits with `3`. -/
theorem doMainExit_codes (args : List String) (out : ClientOutcome) (e : Int) :
    ((parseCmdLine args).2 = false → doMainExit args out = some 0) ∧
    ((parseCmdLine args).2 = true → (parseCmdLine args).1.mode = Mode.client →
      doMainExit args ClientOutcome.normal = some 0 ∧
      doMainExit args (ClientOutcome.connectFail e) = some e ∧
      doMainExit args ClientOutcome.frameSendFail = some 3) := by
  constructor
  · intro hfail
    unfold doMainExit
    dsimp only
    rw [hfail]
    rfl
  · intro hok hclient
    have hns : (parseCmdLine args).1.mode ≠ Mode.server := by
      rw [hclient]
      intro hc
      exact absurd hc (by decide)
    refine ⟨?_, ?_, ?_⟩ <;>
      (unfold doMainExit; dsimp only; rw [hok, if_pos rfl, if_neg hns]) <;> rfl

/-- Claim C8 (amended), witness: `-mode:client -remoteip:10.0.0.1` parses
successfully in client mode, and a connect failure with `errno = 61`
(ECONNREFUSED on macOS) exits with code 61. -/
theorem doMainExit_codes_witness :
    (parseCmdLine ["-mode:client", "-remoteip:10.0.0.1"]).2 = true ∧
    (parseCmdLine ["-mode:client", "-remoteip:10.0.0.1"]).1.mode = Mode.client ∧
    doMainExit ["-mode:client", "-remoteip:10.0.0.1"] (ClientOutcome.connectFail 61) =
      some 61 :=
  ⟨by decide, by decide,
    ((doMainExit_codes ["-mode:client", "-remoteip:10.0.0.1"] ClientOutcome.normal 61).2
      (by decide) (by decide)).2.1⟩

end Netthru
